import Mathlib

/-!
# Verification of the mmmbop resumable migration pipeline

Shallow embedding of the mmmbop source (gzran indexed decompressor, reader,
processor, writer, checkpointer, supervisor dispatch, config validation) and
proofs settling the spec claims C1-C10.

Conventions:
* Bytes are `Nat` values `< 256`; byte streams are `List Nat`.
* Go `int64` offsets are nonnegative on every code path modelled here, so they
  are embedded as `Nat` (seek targets, which may be negative, are `Int`).
* Wall-clock instants are `Nat`; the Go zero `time.Time` is `Option.none`.
-/

/-! ## CRC32 (hash/crc32, IEEE polynomial)

`crc32.Update(crc, crc32.IEEETable, p)` is the table-driven form of the
reflected-polynomial bitwise algorithm below: complement the running value,
fold each byte in with eight shift/xor steps using polynomial 0xEDB88320,
and complement again. -/

def crc32Poly : Nat := 0xEDB88320

def crc32Bit (c : Nat) : Nat :=
  if c % 2 = 1 then (c / 2) ^^^ crc32Poly else c / 2

def crc32Byte (c : Nat) (b : Nat) : Nat :=
  crc32Bit (crc32Bit (crc32Bit (crc32Bit (crc32Bit (crc32Bit (crc32Bit (crc32Bit (c ^^^ b))))))))

def crc32Mask : Nat := 0xFFFFFFFF

/-- `crc32.Update(crc, crc32.IEEETable, p)`. -/
def crc32Update (crc : Nat) (p : List Nat) : Nat :=
  (p.foldl crc32Byte (crc ^^^ crc32Mask)) ^^^ crc32Mask

/-- CRC32 of a byte list starting from the zero running value, exactly the
digest the gzran reader accumulates starting from `z.digest = 0`. -/
def crc32Bytes (p : List Nat) : Nat := crc32Update 0 p

theorem xor_xor_cancel (a b : Nat) : a ^^^ b ^^^ b = a := by
  rw [Nat.xor_assoc, Nat.xor_self, Nat.xor_zero]

/-- Incremental CRC updates over concatenated segments agree with one update of
the whole: the bookkeeping `z.digest = crc32.Update(z.digest, tab, newData)`
accumulates exactly the concatenation of the `newData` segments. -/
theorem crc32Update_append (crc : Nat) (a b : List Nat) :
    crc32Update crc (a ++ b) = crc32Update (crc32Update crc a) b := by
  unfold crc32Update
  rw [List.foldl_append, xor_xor_cancel]

/-! ## gzran index (vendor/github.com/timpalpant/gzran, index file part_013) -/

/-- `Point` holds the decompressor state at a given offset within the
uncompressed data. -/
structure Point where
  compressedOffset : Nat
  uncompressedOffset : Nat
  decompressorState : List Nat
  deriving DecidableEq, Repr

/-- The Go zero value `Point{}` returned by `closestPointBefore` when the
binary search lands at index 0. -/
instance : Inhabited Point := ⟨⟨0, 0, []⟩⟩

/-- `Index` collects decompressor state at offset `Point`s. -/
def GzIndex := List Point

/-- `func (idx Index) lastUncompressedOffset() int64`. -/
def lastUncompressedOffset (idx : List Point) : Nat :=
  match idx.getLast? with
  | none => 0
  | some p => p.uncompressedOffset

/-- The loop of Go `sort.Search(n, f)`: binary search for the least index `i`
with `f i = true`, assuming `f` is monotone on `[0, n)`. -/
def sortSearchLoop (f : Nat → Bool) (i j : Nat) : Nat :=
  if h : i < j then
    let m := (i + j) / 2
    if f m then sortSearchLoop f i m else sortSearchLoop f (m + 1) j
  else i
termination_by j - i
decreasing_by
  · omega
  · omega

/-- `sort.Search(n, f)`. -/
def sortSearch (n : Nat) (f : Nat → Bool) : Nat := sortSearchLoop f 0 n

/-- `func (idx Index) closestPointBefore(offset int64) Point`: binary search for
the first point past `offset`; return the previous point, or the zero `Point`
if there is none. -/
def closestPointBefore (idx : List Point) (offset : Nat) : Point :=
  let j := sortSearch idx.length
    (fun h => decide (offset < (idx.getD h default).uncompressedOffset))
  if j = 0 then default else idx.getD (j - 1) default

/-- `sortSearchLoop` returns the split position `m` whenever `f` is false
strictly below `m` and true on `[m, n)`, for any window `[i, j] ∋ m` with
`j ≤ n`. -/
theorem sortSearchLoop_eq (f : Nat → Bool) (n m : Nat)
    (hfalse : ∀ k, k < m → f k = false) (htrue : ∀ k, m ≤ k → k < n → f k = true) :
    ∀ i j, i ≤ m → m ≤ j → j ≤ n → sortSearchLoop f i j = m := by
  intro i j
  induction i, j using sortSearchLoop.induct f with
  | case1 i j h mid ht ih =>
    intro him hmj hjn
    rw [sortSearchLoop]
    simp only [dif_pos h]
    have hmid : mid = (i + j) / 2 := rfl
    rw [if_pos ht]
    apply ih
    · exact him
    · -- f mid = true so m ≤ mid
      by_contra hc
      push_neg at hc
      have := hfalse mid hc
      rw [this] at ht
      exact Bool.false_ne_true ht
    · omega
  | case2 i j h mid hf ih =>
    intro him hmj hjn
    rw [sortSearchLoop]
    simp only [dif_pos h]
    rw [if_neg (by simp [hf])]
    apply ih
    · -- f mid = false so mid < m
      by_contra hc
      push_neg at hc
      have hmidn : mid < n := by
        have : mid < j := by omega
        omega
      have := htrue mid (by omega) hmidn
      exact hf this
    · exact hmj
    · exact hjn
  | case3 i j h =>
    intro him hmj hjn
    rw [sortSearchLoop]
    simp only [dif_neg h]
    omega

/-! ### Characterizing `closestPointBefore` on sorted indexes -/

/-- Index points are strictly ascending in uncompressed offset. -/
def IndexSorted (idx : List Point) : Prop :=
  List.Pairwise (fun a b => a.uncompressedOffset < b.uncompressedOffset) idx

/-- The split position that `sort.Search` is after: the length of the maximal
prefix of points with `uncompressedOffset ≤ t`. -/
def firstGT : List Point → Nat → Nat
  | [], _ => 0
  | p :: ps, t => if t < p.uncompressedOffset then 0 else firstGT ps t + 1

theorem firstGT_le_length (idx : List Point) (t : Nat) : firstGT idx t ≤ idx.length := by
  induction idx with
  | nil => simp [firstGT]
  | cons p ps ih =>
    simp only [firstGT, List.length_cons]
    split
    · omega
    · omega

theorem getD_lt_firstGT (idx : List Point) (t k : Nat) (hk : k < firstGT idx t) :
    (idx.getD k default).uncompressedOffset ≤ t := by
  induction idx generalizing k with
  | nil => simp [firstGT] at hk
  | cons p ps ih =>
    simp only [firstGT] at hk
    by_cases hp : t < p.uncompressedOffset
    · rw [if_pos hp] at hk
      omega
    · rw [if_neg hp] at hk
      cases k with
      | zero => simpa using Nat.le_of_not_lt hp
      | succ k => simpa using ih k (by omega)

theorem getD_mem_of_lt (idx : List Point) (k : Nat) (h : k < idx.length) :
    idx.getD k default ∈ idx := by
  induction idx generalizing k with
  | nil => simp at h
  | cons p ps ih =>
    cases k with
    | zero => simp
    | succ k =>
      rw [List.getD_cons_succ]
      exact List.mem_cons_of_mem p (ih k (by simpa using h))

theorem getD_ge_firstGT (idx : List Point) (t : Nat) (hs : IndexSorted idx) :
    ∀ k, firstGT idx t ≤ k → k < idx.length →
      t < (idx.getD k default).uncompressedOffset := by
  induction idx with
  | nil =>
    intro k hk hlen
    simp at hlen
  | cons p ps ih =>
    rw [IndexSorted, List.pairwise_cons] at hs
    intro k hk hlen
    simp only [firstGT] at hk
    by_cases hp : t < p.uncompressedOffset
    · cases k with
      | zero => simpa using hp
      | succ k =>
        rw [List.getD_cons_succ]
        have hmem : ps.getD k default ∈ ps :=
          getD_mem_of_lt ps k (by simpa using hlen)
        exact Nat.lt_trans hp (hs.1 _ hmem)
    · rw [if_neg hp] at hk
      cases k with
      | zero => omega
      | succ k =>
        rw [List.getD_cons_succ]
        exact ih hs.2 k (by omega) (by simpa using hlen)

/-- On a sorted index, the `sort.Search` call inside `closestPointBefore`
computes exactly the prefix length `firstGT`. -/
theorem closestPointBefore_eq (idx : List Point) (t : Nat) (hs : IndexSorted idx) :
    closestPointBefore idx t =
      if firstGT idx t = 0 then default else idx.getD (firstGT idx t - 1) default := by
  unfold closestPointBefore sortSearch
  have h := sortSearchLoop_eq
    (fun h => decide (t < (idx.getD h default).uncompressedOffset))
    idx.length (firstGT idx t)
    (fun k hk => by simpa using Nat.not_lt.mpr (getD_lt_firstGT idx t k hk))
    (fun k hk hlen => by simpa using getD_ge_firstGT idx t hs k hk hlen)
    0 idx.length (Nat.zero_le _) (firstGT_le_length idx t) (Nat.le_refl _)
  rw [h]

/-- The point `closestPointBefore` returns never lies past the target:
it is the greatest indexed point with `uncompressed_offset ≤ target` (or the
zero point). -/
theorem closestPointBefore_le (idx : List Point) (t : Nat) (hs : IndexSorted idx) :
    (closestPointBefore idx t).uncompressedOffset ≤ t := by
  rw [closestPointBefore_eq idx t hs]
  split
  · simp [default]
  · exact getD_lt_firstGT idx t _ (by omega)

theorem closestPointBefore_mem_or_default (idx : List Point) (t : Nat) (hs : IndexSorted idx) :
    closestPointBefore idx t = default ∨ closestPointBefore idx t ∈ idx := by
  rw [closestPointBefore_eq idx t hs]
  split
  · exact Or.inl rfl
  · refine Or.inr (getD_mem_of_lt idx _ ?_)
    have h1 := firstGT_le_length idx t
    omega

/-- No indexed point with `uncompressedOffset ≤ t` lies beyond the returned
point: `closestPointBefore` returns the greatest such point. -/
theorem closestPointBefore_greatest (idx : List Point) (t : Nat) (hs : IndexSorted idx) :
    ∀ q ∈ idx, q.uncompressedOffset ≤ t →
      q.uncompressedOffset ≤ (closestPointBefore idx t).uncompressedOffset := by
  intro q hq hqt
  obtain ⟨⟨k, hklen⟩, hget⟩ := List.mem_iff_get.mp hq
  have hgetD : idx.getD k default = q := by
    rw [List.getD_eq_getElem?_getD]
    simp [List.getElem?_eq_getElem hklen]
    rw [← hget]
    rfl
  have hkf : k < firstGT idx t := by
    by_contra hc
    push_neg at hc
    have := getD_ge_firstGT idx t hs k hc hklen
    rw [hgetD] at this
    omega
  rw [closestPointBefore_eq idx t hs]
  have hf0 : firstGT idx t ≠ 0 := by omega
  rw [if_neg hf0]
  rcases Nat.lt_or_ge k (firstGT idx t - 1) with hlt | hge
  · have hpw := List.pairwise_iff_get.mp hs
    have hflen : firstGT idx t - 1 < idx.length := by
      have := firstGT_le_length idx t
      omega
    have := hpw ⟨k, hklen⟩ ⟨firstGT idx t - 1, hflen⟩ (by simpa using hlt)
    rw [hget] at this
    have hD : idx.getD (firstGT idx t - 1) default = idx.get ⟨firstGT idx t - 1, hflen⟩ := by
      rw [List.getD_eq_getElem?_getD]
      simp [List.getElem?_eq_getElem hflen]
    rw [hD]
    exact Nat.le_of_lt this
  · have hk : k = firstGT idx t - 1 := by omega
    rw [← hk, hgetD]

/-! ## gzran seekable reader (gunzip.go)

The embedding keeps the `Reader` bookkeeping fields of gunzip.go exactly
(`pos`, `furthestRead`, `digest`, `size`, `checkedDigest`, `Index`,
`indexInterval`, sticky `err`).  The flate decompressor itself
(`flate.NewReaderState` / `flate.DecompressorState`) is not part of src/ —
only `internal/flate/dict_decoder.go` is vendored — so decompression is
modelled from the spec: the uncompressed stream is a byte list `data`, a
read delivers the next bytes of `data` at the current position, and
restoring a captured `decompressor_state` blob repositions decompression at
that point's uncompressed offset ("a restore descriptor … sufficient to
resume decompression without rereading earlier members"). -/

inductive GzErr where
  | eof
  | checksum
  | header
  | invalidSeek
  | unimplementedSeek
  | unexpectedEof
  | sliceBounds
  deriving DecidableEq, Repr

/-- The compressed source as seen through decompression.  `data` is the whole
uncompressed stream; `trailerDigest`/`trailerSize` are the CRC32 and ISIZE
fields stored in the gzip trailer; `compAt`/`stateAt` give the underlying
compressed offset and the opaque state blob captured at an uncompressed
position (modelled from the spec, see above). -/
structure GzSource where
  data : List Nat
  compAt : Nat → Nat
  stateAt : Nat → List Nat
  trailerDigest : Nat
  trailerSize : Nat

/-- The bookkeeping state of `gzran.Reader`. -/
structure GzReader where
  pos : Nat
  furthestRead : Nat
  digest : Nat
  size : Nat
  checkedDigest : Bool
  index : List Point
  indexInterval : Nat
  err : Option GzErr
  deriving Repr, DecidableEq

/-- `NewReaderInterval(r, indexInterval)`: position 0, seed index with the
point `{CompressedOffset: bufR.Offset(), UncompressedOffset: 0}`. -/
def mkGzReader (interval : Nat) : GzReader :=
  { pos := 0, furthestRead := 0, digest := 0, size := 0, checkedDigest := false,
    index := [⟨0, 0, []⟩], indexInterval := interval, err := none }

structure ReadRes where
  z : GzReader
  n : Nat
  bytes : List Nat
  err : Option GzErr

/-- The in-bounds case of the frontier/digest step of `Read` ("Is this read
past the furthest point we have read before?  If so then update size/digest
with new data"), valid when the pre-read position does not exceed the
frontier: there `startIdx = furthestRead - (pos1 - n)` is nonnegative and
`newData = p[startIdx:n]` is the stream slice `data[furthestRead : pos1]`.
The full step, panic included, is `frontierUpdate` below. -/
def frontierAdvance (src : GzSource) (z : GzReader) (pos1 : Nat) : GzReader :=
  if z.furthestRead < pos1 then
    let newData := (src.data.drop z.furthestRead).take (pos1 - z.furthestRead)
    { z with pos := pos1,
             digest := crc32Update z.digest newData,
             size := (z.size + newData.length) % 4294967296,
             furthestRead := pos1 }
  else { z with pos := pos1 }

/-- The index step of `Read` / `addPointToIndex`: when the new position has
crossed `lastUncompressedOffset + indexInterval`, append a point capturing the
compressed offset and decompressor state at the new position. -/
def indexUpdate (src : GzSource) (z1 : GzReader) (pos1 : Nat) : GzReader :=
  if lastUncompressedOffset z1.index + z1.indexInterval ≤ pos1 then
    { z1 with index := z1.index ++ [⟨src.compAt pos1, pos1, src.stateAt pos1⟩] }
  else z1

/-- The frontier/digest step of `Read`, exactly as gunzip.go performs it:
when the new position passes the frontier, `startIdx := z.furthestRead -
(z.pos - int64(n))` is computed and `p[startIdx:n]` is sliced.  If the
pre-read position itself already lies past the frontier — reachable only
after restoring decompressor state at a point of a loaded persisted Index —
`startIdx` is negative and the slice makes the Go runtime panic (slice
bounds out of range); the panic is modelled as `none`. -/
def frontierUpdate (src : GzSource) (z : GzReader) (pos1 : Nat) : Option GzReader :=
  if z.furthestRead < pos1 ∧ z.furthestRead < z.pos then none
  else some (frontierAdvance src z pos1)

/-- `func (z *Reader) Read(p []byte) (n int, err error)` with `len(p) = k`.

The flate read is determinized as: deliver `n = min k avail` bytes and
report `io.EOF` only on a read that can deliver nothing (`0 < k`, `n = 0`).
A panic in the frontier step (negative `startIdx`, see `frontierUpdate`)
aborts the read with the terminal `sliceBounds` outcome — in Go nothing
after the slice executes.  At EOF the 8 trailer bytes are read and, unless
`checkedDigest` is already set, the trailer CRC32/ISIZE fields are compared
with the running digest and size; `z.err` stays sticky (`io.EOF` or
`ErrChecksum`). -/
def readGz (src : GzSource) (z : GzReader) (k : Nat) : ReadRes :=
  if z.err.isSome then ⟨z, 0, [], z.err⟩
  else
    let avail := src.data.length - z.pos
    let n := min k avail
    let bytes := (src.data.drop z.pos).take n
    let pos1 := z.pos + n
    match frontierUpdate src z pos1 with
    | none =>
      ⟨{ z with err := some GzErr.sliceBounds }, 0, [], some GzErr.sliceBounds⟩
    | some z1 =>
      let z2 : GzReader := indexUpdate src z1 pos1
      if 0 < k ∧ n = 0 then
        if z2.checkedDigest then
          ⟨{ z2 with err := some GzErr.eof }, n, bytes, some GzErr.eof⟩
        else if src.trailerDigest ≠ z2.digest ∨ src.trailerSize ≠ z2.size then
          ⟨{ z2 with err := some GzErr.checksum }, n, bytes, some GzErr.checksum⟩
        else
          ⟨{ z2 with checkedDigest := true, digest := 0, size := 0,
                     err := some GzErr.eof }, n, bytes, some GzErr.eof⟩
      else ⟨z2, n, bytes, none⟩

/-- The panic-free evaluation of `Read`, equal to `readGz` whenever the
position is within the frontier (`readGz_eq_ok`). -/
def readGzOk (src : GzSource) (z : GzReader) (k : Nat) : ReadRes :=
  if z.err.isSome then ⟨z, 0, [], z.err⟩
  else
    let avail := src.data.length - z.pos
    let n := min k avail
    let bytes := (src.data.drop z.pos).take n
    let pos1 := z.pos + n
    let z2 : GzReader := indexUpdate src (frontierAdvance src z pos1) pos1
    if 0 < k ∧ n = 0 then
      if z2.checkedDigest then
        ⟨{ z2 with err := some GzErr.eof }, n, bytes, some GzErr.eof⟩
      else if src.trailerDigest ≠ z2.digest ∨ src.trailerSize ≠ z2.size then
        ⟨{ z2 with err := some GzErr.checksum }, n, bytes, some GzErr.checksum⟩
      else
        ⟨{ z2 with checkedDigest := true, digest := 0, size := 0,
                   err := some GzErr.eof }, n, bytes, some GzErr.eof⟩
    else ⟨z2, n, bytes, none⟩

theorem frontierUpdate_of_pos_le (src : GzSource) (z : GzReader) (p1 : Nat)
    (h : z.pos ≤ z.furthestRead) :
    frontierUpdate src z p1 = some (frontierAdvance src z p1) := by
  unfold frontierUpdate
  rw [if_neg (fun hc => absurd hc.2 (Nat.not_lt.mpr h))]

theorem frontierUpdate_none_of_lt (src : GzSource) (z : GzReader) (p1 : Nat)
    (h1 : z.furthestRead < z.pos) (h2 : z.pos ≤ p1) :
    frontierUpdate src z p1 = none := by
  unfold frontierUpdate
  rw [if_pos ⟨by omega, h1⟩]

theorem readGz_eq_ok (src : GzSource) (z : GzReader) (k : Nat)
    (hpf : z.pos ≤ z.furthestRead) :
    readGz src z k = readGzOk src z k := by
  unfold readGz readGzOk
  by_cases he : z.err.isSome
  · rw [if_pos he, if_pos he]
  · rw [if_neg he, if_neg he]
    simp only []
    rw [frontierUpdate_of_pos_le src z _ hpf]

/-- `func (z *Reader) seekToPoint(p Point)`: seek the compressed stream to
`p.CompressedOffset`, rebuild the buffered reader, and restore decompressor
state (`readHeader` for the zero point — which saves and restores the running
digest — or `flate.NewReaderState(bufR, p.DecompressorState)`).  Modelled from
the spec: the restored decompressor continues at `p.UncompressedOffset`.
`z.err` is overwritten with the (successful) restore result. -/
def seekToPoint (z : GzReader) (p : Point) : GzReader :=
  { z with pos := p.uncompressedOffset, err := none }

/-- The loop inside `io.CopyN(ioutil.Discard, z, nBytesToSkip)`: repeatedly
read through `z` in chunks of at most 32768 bytes (the `io.Copy` buffer)
until `remaining` bytes are discarded or the reader reports an error.
A read returning `(0, nil)` cannot occur (reads deliver at least one byte
while data remains) and exits the loop. -/
def discardLoop (src : GzSource) (z : GzReader) (remaining : Nat) : GzReader × Option GzErr :=
  if hr : remaining = 0 then (z, none)
  else
    match readGz src z (min 32768 remaining) with
    | ⟨z2, _, _, some e⟩ => (z2, some e)
    | ⟨z2, n, _, none⟩ =>
      if hn : n = 0 then (z2, none)
      else discardLoop src z2 (remaining - n)
termination_by remaining
decreasing_by omega

/-- `func (z *Reader) seekForward(offset int64)`: restore at the greatest
indexed point before `offset` only when it lies strictly more than
`indexInterval` past the current position; then discard forward to `offset`. -/
def seekForward (src : GzSource) (z : GzReader) (offset : Nat) : GzReader × Option GzErr :=
  let seekPoint := closestPointBefore z.index offset
  let z1 := if z.pos + z.indexInterval < seekPoint.uncompressedOffset
    then seekToPoint z seekPoint else z
  discardLoop src z1 (offset - z1.pos)

/-- `func (z *Reader) Seek(offset, io.SeekStart)`.  The backward branch
(`seekBackward`) restores at the greatest indexed point ≤ `offset` and then
calls `z.Seek(offset, io.SeekStart)` again; for a sorted index the restored
position is ≤ `offset`, so the recursive call takes the no-op or forward
branch — the recursion is inlined here (on a garbage index whose restored
point lies past the target, Go would loop forever). -/
def seekStart (src : GzSource) (z : GzReader) (offset : Int) : GzReader × Option GzErr :=
  if offset < 0 then (z, some GzErr.invalidSeek)
  else if offset = (z.pos : Int) then (z, none)
  else if (z.pos : Int) < offset then seekForward src z offset.toNat
  else
    let seekPoint := closestPointBefore z.index offset.toNat
    let z1 := seekToPoint z seekPoint
    if offset = (z1.pos : Int) then (z1, none) else seekForward src z1 offset.toNat

inductive Whence where
  | start
  | current
  | seekEnd

/-- `func (z *Reader) Seek(offset int64, whence int)`: `SeekCurrent` recurses
as `Seek(z.pos+offset, SeekStart)`; `SeekEnd` is `ErrUnimplementedSeek`. -/
def seekGz (src : GzSource) (z : GzReader) (offset : Int) (w : Whence) :
    GzReader × Option GzErr :=
  match w with
  | Whence.start => seekStart src z offset
  | Whence.current => seekStart src z ((z.pos : Int) + offset)
  | Whence.seekEnd => (z, some GzErr.unimplementedSeek)

/-! ### Reader invariants -/

/-- Well-formedness maintained by the gzran reader within a run: the position
never passes the furthest-read frontier, the frontier never passes the end of
the stream, the index is strictly ascending with all points at or before the
frontier, and the index interval is positive (the callers in this repository
use 4096 and the 1 MB default). -/
structure GzWF (src : GzSource) (z : GzReader) : Prop where
  pos_le : z.pos ≤ z.furthestRead
  fr_le : z.furthestRead ≤ src.data.length
  sorted : IndexSorted z.index
  points_le : ∀ p ∈ z.index, p.uncompressedOffset ≤ z.furthestRead
  interval_pos : 1 ≤ z.indexInterval

/-- Digest bookkeeping: while the trailer has not been verified, the running
digest and size are exactly the CRC32 and length (mod 2^32) of the
furthest-read prefix of the uncompressed stream — only bytes observed on the
forward frontier contribute. -/
structure GzDigestWF (src : GzSource) (z : GzReader) : Prop where
  digest_eq : z.checkedDigest = false →
    z.digest = crc32Bytes (src.data.take z.furthestRead)
  size_eq : z.checkedDigest = false → z.size = z.furthestRead % 4294967296

theorem lastUO_mem (idx : List Point) (h : idx ≠ []) :
    ∃ p ∈ idx, lastUncompressedOffset idx = p.uncompressedOffset := by
  refine ⟨idx.getLast h, List.getLast_mem h, ?_⟩
  unfold lastUncompressedOffset
  rw [List.getLast?_eq_getLast idx h]

theorem mem_le_lastUO (idx : List Point) (hs : IndexSorted idx) :
    ∀ p ∈ idx, p.uncompressedOffset ≤ lastUncompressedOffset idx := by
  induction idx with
  | nil => intro p hp; simp at hp
  | cons q qs ih =>
    rw [IndexSorted, List.pairwise_cons] at hs
    intro p hp
    rcases List.mem_cons.mp hp with hpq | hpqs
    · subst hpq
      cases hqs : qs with
      | nil =>
        unfold lastUncompressedOffset
        simp
      | cons r rs =>
        subst hqs
        obtain ⟨w, hw, hwe⟩ := lastUO_mem (r :: rs) (by simp)
        have hlt : p.uncompressedOffset < w.uncompressedOffset := hs.1 w hw
        have hcc : lastUncompressedOffset (p :: r :: rs) = lastUncompressedOffset (r :: rs) := by
          unfold lastUncompressedOffset
          rw [List.getLast?_cons_cons]
        rw [hcc, hwe]
        omega
    · cases hqs : qs with
      | nil =>
        subst hqs
        simp at hpqs
      | cons r rs =>
        subst hqs
        have h1 := ih hs.2 p hpqs
        have hcc : lastUncompressedOffset (q :: r :: rs) = lastUncompressedOffset (r :: rs) := by
          unfold lastUncompressedOffset
          rw [List.getLast?_cons_cons]
        rw [hcc]
        exact h1

theorem frontierAdvance_pos (src : GzSource) (z : GzReader) (p1 : Nat) :
    (frontierAdvance src z p1).pos = p1 := by
  unfold frontierAdvance
  split <;> rfl

theorem frontierAdvance_fr (src : GzSource) (z : GzReader) (p1 : Nat) :
    (frontierAdvance src z p1).furthestRead = max z.furthestRead p1 := by
  unfold frontierAdvance
  split
  · simp only []
    omega
  · simp only []
    omega

theorem frontierAdvance_index (src : GzSource) (z : GzReader) (p1 : Nat) :
    (frontierAdvance src z p1).index = z.index := by
  unfold frontierAdvance
  split <;> rfl

theorem frontierAdvance_interval (src : GzSource) (z : GzReader) (p1 : Nat) :
    (frontierAdvance src z p1).indexInterval = z.indexInterval := by
  unfold frontierAdvance
  split <;> rfl

theorem frontierAdvance_checked (src : GzSource) (z : GzReader) (p1 : Nat) :
    (frontierAdvance src z p1).checkedDigest = z.checkedDigest := by
  unfold frontierAdvance
  split <;> rfl

theorem frontierAdvance_err (src : GzSource) (z : GzReader) (p1 : Nat) :
    (frontierAdvance src z p1).err = z.err := by
  unfold frontierAdvance
  split <;> rfl

theorem indexUpdate_pos (src : GzSource) (z : GzReader) (p1 : Nat) :
    (indexUpdate src z p1).pos = z.pos := by
  unfold indexUpdate
  split <;> rfl

theorem indexUpdate_fr (src : GzSource) (z : GzReader) (p1 : Nat) :
    (indexUpdate src z p1).furthestRead = z.furthestRead := by
  unfold indexUpdate
  split <;> rfl

theorem indexUpdate_digest (src : GzSource) (z : GzReader) (p1 : Nat) :
    (indexUpdate src z p1).digest = z.digest := by
  unfold indexUpdate
  split <;> rfl

theorem indexUpdate_size (src : GzSource) (z : GzReader) (p1 : Nat) :
    (indexUpdate src z p1).size = z.size := by
  unfold indexUpdate
  split <;> rfl

theorem indexUpdate_checked (src : GzSource) (z : GzReader) (p1 : Nat) :
    (indexUpdate src z p1).checkedDigest = z.checkedDigest := by
  unfold indexUpdate
  split <;> rfl

theorem indexUpdate_interval (src : GzSource) (z : GzReader) (p1 : Nat) :
    (indexUpdate src z p1).indexInterval = z.indexInterval := by
  unfold indexUpdate
  split <;> rfl

theorem indexUpdate_err (src : GzSource) (z : GzReader) (p1 : Nat) :
    (indexUpdate src z p1).err = z.err := by
  unfold indexUpdate
  split <;> rfl

theorem frontierAdvance_wf (src : GzSource) (z : GzReader) (p1 : Nat)
    (h : GzWF src z) (hp1 : z.pos ≤ p1) (hlen : p1 ≤ src.data.length) :
    GzWF src (frontierAdvance src z p1) := by
  constructor
  · rw [frontierAdvance_pos, frontierAdvance_fr]
    omega
  · rw [frontierAdvance_fr]
    have := h.fr_le
    omega
  · rw [frontierAdvance_index]
    exact h.sorted
  · rw [frontierAdvance_index, frontierAdvance_fr]
    intro p hp
    have := h.points_le p hp
    omega
  · rw [frontierAdvance_interval]
    exact h.interval_pos

theorem frontierAdvance_dwf (src : GzSource) (z : GzReader) (p1 : Nat)
    (h : GzDigestWF src z) (hwf : GzWF src z) (hlen : p1 ≤ src.data.length) :
    GzDigestWF src (frontierAdvance src z p1) := by
  unfold frontierAdvance
  split
  · rename_i hfr
    constructor
    · intro hc
      simp only [] at hc ⊢
      rw [h.digest_eq hc]
      have hsplit : src.data.take p1 =
          src.data.take z.furthestRead ++
            (src.data.drop z.furthestRead).take (p1 - z.furthestRead) := by
        have h2 : p1 = z.furthestRead + (p1 - z.furthestRead) := by omega
        conv_lhs => rw [h2]
        rw [List.take_add]
      rw [hsplit]
      unfold crc32Bytes
      rw [crc32Update_append]
    · intro hc
      simp only [] at hc ⊢
      rw [h.size_eq hc]
      have hseg : ((src.data.drop z.furthestRead).take (p1 - z.furthestRead)).length
          = p1 - z.furthestRead := by
        rw [List.length_take, List.length_drop]
        have := hwf.fr_le
        omega
      rw [hseg, Nat.mod_add_mod]
      congr 1
      omega
  · constructor
    · intro hc
      exact h.digest_eq hc
    · intro hc
      exact h.size_eq hc

theorem indexUpdate_wf (src : GzSource) (z : GzReader) (p1 : Nat)
    (h : GzWF src z) (hp1 : p1 ≤ z.furthestRead) :
    GzWF src (indexUpdate src z p1) := by
  unfold indexUpdate
  split
  · rename_i hcond
    constructor
    · exact h.pos_le
    · exact h.fr_le
    · simp only []
      rw [IndexSorted, List.pairwise_append]
      refine ⟨h.sorted, List.pairwise_singleton _ _, ?_⟩
      intro a ha b hb
      simp only [List.mem_singleton] at hb
      subst hb
      have h1 := mem_le_lastUO z.index h.sorted a ha
      have h2 := h.interval_pos
      simp only []
      omega
    · intro p hp
      simp only [List.mem_append, List.mem_singleton] at hp
      rcases hp with hp | hp
      · exact h.points_le p hp
      · subst hp
        exact hp1
    · exact h.interval_pos
  · exact h

theorem indexUpdate_dwf (src : GzSource) (z : GzReader) (p1 : Nat)
    (h : GzDigestWF src z) : GzDigestWF src (indexUpdate src z p1) := by
  constructor
  · rw [indexUpdate_digest, indexUpdate_checked, indexUpdate_fr]
    exact h.digest_eq
  · rw [indexUpdate_size, indexUpdate_checked, indexUpdate_fr]
    exact h.size_eq

/-- A read within the frontier that stays within the remaining data delivers
exactly the requested bytes with no error. -/
theorem readGz_within (src : GzSource) (z : GzReader) (k : Nat)
    (he : z.err = none) (hpf : z.pos ≤ z.furthestRead)
    (hk : z.pos + k ≤ src.data.length) :
    readGz src z k =
      ⟨indexUpdate src (frontierAdvance src z (z.pos + k)) (z.pos + k), k,
        (src.data.drop z.pos).take k, none⟩ := by
  rw [readGz_eq_ok src z k hpf]
  unfold readGzOk
  have h1 : z.err.isSome = false := by rw [he]; rfl
  simp only [h1, Bool.false_eq_true, if_false]
  have hn : min k (src.data.length - z.pos) = k := by omega
  simp only [hn]
  have hc : ¬(0 < k ∧ k = 0) := by omega
  rw [if_neg hc]

theorem gzwfCongr {src : GzSource} {z z' : GzReader} (h : GzWF src z)
    (hp : z'.pos = z.pos) (hf : z'.furthestRead = z.furthestRead)
    (hi : z'.index = z.index) (hv : z'.indexInterval = z.indexInterval) :
    GzWF src z' := by
  constructor
  · rw [hp, hf]
    exact h.pos_le
  · rw [hf]
    exact h.fr_le
  · rw [hi]
    exact h.sorted
  · rw [hi, hf]
    exact h.points_le
  · rw [hv]
    exact h.interval_pos

theorem gzdwfCongr {src : GzSource} {z z' : GzReader} (h : GzDigestWF src z)
    (hd : z'.digest = z.digest) (hs : z'.size = z.size)
    (hc : z'.checkedDigest = z.checkedDigest) (hf : z'.furthestRead = z.furthestRead) :
    GzDigestWF src z' := by
  constructor
  · intro hcc
    rw [hd, hf]
    exact h.digest_eq (by rw [← hc]; exact hcc)
  · intro hcc
    rw [hs, hf]
    exact h.size_eq (by rw [← hc]; exact hcc)

/-- `Read` preserves the reader invariants. -/
theorem readGz_wf (src : GzSource) (z : GzReader) (k : Nat) (h : GzWF src z) :
    GzWF src (readGz src z k).z := by
  rw [readGz_eq_ok src z k h.pos_le]
  unfold readGzOk
  by_cases he : z.err.isSome
  · rw [if_pos he]
    exact h
  · rw [if_neg he]
    simp only []
    have h1 := h.pos_le
    have h2 := h.fr_le
    have hle : z.pos + min k (src.data.length - z.pos) ≤ src.data.length := by omega
    have hwf2 : GzWF src (indexUpdate src
        (frontierAdvance src z (z.pos + min k (src.data.length - z.pos)))
        (z.pos + min k (src.data.length - z.pos))) := by
      apply indexUpdate_wf src _ _ (frontierAdvance_wf src z _ h (by omega) hle)
      rw [frontierAdvance_fr]
      omega
    split
    · split
      · exact gzwfCongr hwf2 rfl rfl rfl rfl
      · split
        · exact gzwfCongr hwf2 rfl rfl rfl rfl
        · exact gzwfCongr hwf2 rfl rfl rfl rfl
    · exact hwf2

/-- `Read` preserves the digest bookkeeping: only frontier bytes feed the
running CRC and size. -/
theorem readGz_dwf (src : GzSource) (z : GzReader) (k : Nat)
    (hwf : GzWF src z) (h : GzDigestWF src z) :
    GzDigestWF src (readGz src z k).z := by
  rw [readGz_eq_ok src z k hwf.pos_le]
  unfold readGzOk
  by_cases he : z.err.isSome
  · rw [if_pos he]
    exact h
  · rw [if_neg he]
    simp only []
    have h1 := hwf.pos_le
    have h2 := hwf.fr_le
    have hle : z.pos + min k (src.data.length - z.pos) ≤ src.data.length := by omega
    have hdwf2 : GzDigestWF src (indexUpdate src
        (frontierAdvance src z (z.pos + min k (src.data.length - z.pos)))
        (z.pos + min k (src.data.length - z.pos))) :=
      indexUpdate_dwf src _ _ (frontierAdvance_dwf src z _ h hwf hle)
    split
    · split
      · exact gzdwfCongr hdwf2 rfl rfl rfl rfl
      · split
        · exact gzdwfCongr hdwf2 rfl rfl rfl rfl
        · constructor
          · intro hcc
            simp at hcc
          · intro hcc
            simp at hcc
    · exact hdwf2

theorem seekToPoint_wf {src : GzSource} {z : GzReader} {p : Point} (h : GzWF src z)
    (hp : p.uncompressedOffset ≤ z.furthestRead) : GzWF src (seekToPoint z p) := by
  constructor
  · exact hp
  · exact h.fr_le
  · exact h.sorted
  · exact h.points_le
  · exact h.interval_pos

theorem seekToPoint_dwf {src : GzSource} {z : GzReader} {p : Point}
    (h : GzDigestWF src z) : GzDigestWF src (seekToPoint z p) :=
  gzdwfCongr h rfl rfl rfl rfl

/-- A `Read` within the frontier fills the caller's buffer with the next
uncompressed bytes at the current position (whatever the EOF/trailer
outcome). -/
theorem readGz_bytes (src : GzSource) (z : GzReader) (k : Nat)
    (herr : z.err = none) (hpf : z.pos ≤ z.furthestRead) :
    (readGz src z k).bytes =
      (src.data.drop z.pos).take (min k (src.data.length - z.pos)) := by
  rw [readGz_eq_ok src z k hpf]
  unfold readGzOk
  have h1 : z.err.isSome = false := by rw [herr]; rfl
  simp only [h1, Bool.false_eq_true, if_false]
  split
  · split
    · rfl
    · split
      · rfl
      · rfl
  · rfl

/-- The `io.CopyN` discard loop: while the request stays within the remaining
stream it discards exactly `rem` bytes, reports no error, and preserves the
reader invariants, the `checkedDigest` flag, and the digest bookkeeping. -/
theorem discardLoop_spec (src : GzSource) :
    ∀ rem z, GzWF src z → z.err = none → z.pos + rem ≤ src.data.length →
      (discardLoop src z rem).2 = none ∧
      (discardLoop src z rem).1.pos = z.pos + rem ∧
      (discardLoop src z rem).1.err = none ∧
      GzWF src (discardLoop src z rem).1 ∧
      (discardLoop src z rem).1.checkedDigest = z.checkedDigest ∧
      (GzDigestWF src z → GzDigestWF src (discardLoop src z rem).1) := by
  intro rem
  induction rem using Nat.strong_induction_on with
  | _ rem ih =>
    intro z hwf herr hle
    by_cases h0 : rem = 0
    · subst h0
      have hD : discardLoop src z 0 = (z, none) := by
        rw [discardLoop]
        simp
      rw [hD]
      exact ⟨rfl, rfl, herr, hwf, rfl, fun hd => hd⟩
    · have hreq1 : 1 ≤ min 32768 rem := by omega
      have hread := readGz_within src z (min 32768 rem) herr hwf.pos_le (by omega)
      have hn0 : ¬(min 32768 rem = 0) := by omega
      rw [discardLoop, dif_neg h0, hread]
      simp only [dif_neg hn0]
      have hz2pos : (indexUpdate src
          (frontierAdvance src z (z.pos + min 32768 rem)) (z.pos + min 32768 rem)).pos
          = z.pos + min 32768 rem := by
        rw [indexUpdate_pos, frontierAdvance_pos]
      have hz2err : (indexUpdate src
          (frontierAdvance src z (z.pos + min 32768 rem)) (z.pos + min 32768 rem)).err
          = none := by
        rw [indexUpdate_err, frontierAdvance_err, herr]
      have hz2chk : (indexUpdate src
          (frontierAdvance src z (z.pos + min 32768 rem)) (z.pos + min 32768 rem)).checkedDigest
          = z.checkedDigest := by
        rw [indexUpdate_checked, frontierAdvance_checked]
      have hz2wf : GzWF src (indexUpdate src
          (frontierAdvance src z (z.pos + min 32768 rem)) (z.pos + min 32768 rem)) := by
        have h2 := readGz_wf src z (min 32768 rem) hwf
        rw [hread] at h2
        exact h2
      have hrec := ih (rem - min 32768 rem) (by omega) _ hz2wf hz2err
        (by rw [hz2pos]; omega)
      refine ⟨hrec.1, ?_, hrec.2.2.1, hrec.2.2.2.1, ?_, ?_⟩
      · rw [hrec.2.1, hz2pos]
        omega
      · rw [hrec.2.2.2.2.1, hz2chk]
      · intro hd
        apply hrec.2.2.2.2.2
        have h3 := readGz_dwf src z (min 32768 rem) hwf hd
        rw [hread] at h3
        exact h3

theorem closestPointBefore_le_fr {src : GzSource} {z : GzReader} (hwf : GzWF src z)
    (t : Nat) : (closestPointBefore z.index t).uncompressedOffset ≤ z.furthestRead := by
  rcases closestPointBefore_mem_or_default z.index t hwf.sorted with hd | hm
  · rw [hd]
    exact Nat.zero_le _
  · exact hwf.points_le _ hm

/-- `seekForward` lands exactly on the target with no error whenever the target
lies between the current position and the end of the stream. -/
theorem seekForward_spec (src : GzSource) (z : GzReader) (t : Nat)
    (hwf : GzWF src z) (herr : z.err = none)
    (hpos : z.pos ≤ t) (hlen : t ≤ src.data.length) :
    (seekForward src z t).2 = none ∧
    (seekForward src z t).1.pos = t ∧
    (seekForward src z t).1.err = none ∧
    GzWF src (seekForward src z t).1 ∧
    (seekForward src z t).1.checkedDigest = z.checkedDigest ∧
    (GzDigestWF src z → GzDigestWF src (seekForward src z t).1) := by
  have hspt : (closestPointBefore z.index t).uncompressedOffset ≤ t :=
    closestPointBefore_le z.index t hwf.sorted
  have hspfr := closestPointBefore_le_fr hwf t
  unfold seekForward
  simp only []
  split
  · -- restore decompressor state at the point, then discard forward
    have hwf1 := seekToPoint_wf hwf hspfr
    have hpos1 : (seekToPoint z (closestPointBefore z.index t)).pos
        = (closestPointBefore z.index t).uncompressedOffset := rfl
    simp only [hpos1]
    have h1 := discardLoop_spec src (t - (closestPointBefore z.index t).uncompressedOffset)
      (seekToPoint z (closestPointBefore z.index t)) hwf1 rfl
      (by simp only [seekToPoint]; omega)
    refine ⟨h1.1, ?_, h1.2.2.1, h1.2.2.2.1, ?_, ?_⟩
    · rw [h1.2.1, hpos1]
      omega
    · rw [h1.2.2.2.2.1]
      rfl
    · intro hd
      exact h1.2.2.2.2.2 (seekToPoint_dwf hd)
  · -- discard forward from the current position
    have h1 := discardLoop_spec src (t - z.pos) z hwf herr (by omega)
    refine ⟨h1.1, ?_, h1.2.2.1, h1.2.2.2.1, h1.2.2.2.2.1, h1.2.2.2.2.2⟩
    rw [h1.2.1]
    omega

/-- `Seek(t, io.SeekStart)` lands exactly on any target inside the stream with
no error, for every direction. -/
theorem seekStart_spec (src : GzSource) (z : GzReader) (t : Nat)
    (hwf : GzWF src z) (herr : z.err = none) (htlen : t ≤ src.data.length) :
    (seekStart src z (t : Int)).2 = none ∧
    (seekStart src z (t : Int)).1.pos = t ∧
    (seekStart src z (t : Int)).1.err = none ∧
    GzWF src (seekStart src z (t : Int)).1 ∧
    (seekStart src z (t : Int)).1.checkedDigest = z.checkedDigest ∧
    (GzDigestWF src z → GzDigestWF src (seekStart src z (t : Int)).1) := by
  unfold seekStart
  rw [if_neg (by omega : ¬((t : Int) < 0))]
  by_cases heq : (t : Int) = (z.pos : Int)
  · rw [if_pos heq]
    have : t = z.pos := by omega
    exact ⟨rfl, this.symm ▸ rfl, herr, hwf, rfl, fun hd => hd⟩
  · rw [if_neg heq]
    by_cases hfwd : (z.pos : Int) < (t : Int)
    · rw [if_pos hfwd]
      have h1 := seekForward_spec src z ((t : Int)).toNat hwf herr (by omega) (by omega)
      have htn : ((t : Int)).toNat = t := by omega
      rw [htn] at h1
      exact ⟨h1.1, h1.2.1, h1.2.2.1, h1.2.2.2.1, h1.2.2.2.2.1, h1.2.2.2.2.2⟩
    · rw [if_neg hfwd]
      simp only []
      have htn : ((t : Int)).toNat = t := by omega
      rw [htn]
      have hspt : (closestPointBefore z.index t).uncompressedOffset ≤ t :=
        closestPointBefore_le z.index t hwf.sorted
      have hspfr := closestPointBefore_le_fr hwf t
      have hwf1 := seekToPoint_wf hwf hspfr
      have hpos1 : (seekToPoint z (closestPointBefore z.index t)).pos
          = (closestPointBefore z.index t).uncompressedOffset := rfl
      by_cases hstop : (t : Int) = ((seekToPoint z (closestPointBefore z.index t)).pos : Int)
      · rw [if_pos hstop]
        have ht2 : (seekToPoint z (closestPointBefore z.index t)).pos = t := by omega
        exact ⟨rfl, ht2, rfl, hwf1, rfl, fun hd => seekToPoint_dwf hd⟩
      · rw [if_neg hstop]
        have h1 := seekForward_spec src (seekToPoint z (closestPointBefore z.index t)) t
          hwf1 rfl (by rw [hpos1]; omega) htlen
        refine ⟨h1.1, h1.2.1, h1.2.2.1, h1.2.2.2.1, ?_, ?_⟩
        · rw [h1.2.2.2.2.1]
          rfl
        · intro hd
          exact h1.2.2.2.2.2 (seekToPoint_dwf hd)

/-- For a reader whose index points all lie within the already-read frontier
(the case for every index built by this run), a seek to any target
t ≤ total uncompressed size lands on t and subsequent reads yield exactly the
bytes of the original uncompressed stream starting at t; backward seeks
restore decompressor state at the greatest IndexPoint with uncompressed
offset ≤ t and then discard forward to t, and forward seeks restore at that
point only when it lies strictly more than indexInterval beyond the current
position, otherwise discarding forward from the current position. The
`GzWF.points_le` hypothesis does not cover a persisted index loaded into a
fresh reader; see `loaded_index_seek_read_panics` for that case. -/
theorem seek_reads_stream_at_target (src : GzSource) (z : GzReader) (t k : Nat)
    (hwf : GzWF src z) (herr : z.err = none) (ht : t ≤ src.data.length) :
    ((seekStart src z (t : Int)).2 = none ∧
     (seekStart src z (t : Int)).1.pos = t ∧
     (readGz src (seekStart src z (t : Int)).1 k).bytes
        = (src.data.drop t).take (min k (src.data.length - t))) ∧
    ((closestPointBefore z.index t).uncompressedOffset ≤ t ∧
     ∀ q ∈ z.index, q.uncompressedOffset ≤ t →
        q.uncompressedOffset ≤ (closestPointBefore z.index t).uncompressedOffset) ∧
    (t < z.pos →
      seekStart src z (t : Int)
        = discardLoop src (seekToPoint z (closestPointBefore z.index t))
            (t - (closestPointBefore z.index t).uncompressedOffset)) ∧
    (z.pos < t →
      seekStart src z (t : Int)
        = if z.pos + z.indexInterval < (closestPointBefore z.index t).uncompressedOffset
          then discardLoop src (seekToPoint z (closestPointBefore z.index t))
              (t - (closestPointBefore z.index t).uncompressedOffset)
          else discardLoop src z (t - z.pos)) := by
  have hmain := seekStart_spec src z t hwf herr ht
  refine ⟨⟨hmain.1, hmain.2.1, ?_⟩, ⟨closestPointBefore_le z.index t hwf.sorted,
    closestPointBefore_greatest z.index t hwf.sorted⟩, ?_, ?_⟩
  · rw [readGz_bytes src _ k hmain.2.2.1 hmain.2.2.2.1.pos_le, hmain.2.1]
  · -- backward seek: restore at the point, then discard forward to the target
    intro hback
    unfold seekStart
    rw [if_neg (by omega : ¬((t : Int) < 0))]
    rw [if_neg (by omega : ¬((t : Int) = (z.pos : Int)))]
    rw [if_neg (by omega : ¬((z.pos : Int) < (t : Int)))]
    simp only []
    have htn : ((t : Int)).toNat = t := by omega
    rw [htn]
    have hpos1 : (seekToPoint z (closestPointBefore z.index t)).pos
        = (closestPointBefore z.index t).uncompressedOffset := rfl
    by_cases hstop : (t : Int) = ((seekToPoint z (closestPointBefore z.index t)).pos : Int)
    · rw [if_pos hstop]
      have hcnt : t - (closestPointBefore z.index t).uncompressedOffset = 0 := by omega
      rw [hcnt, discardLoop]
      simp
    · rw [if_neg hstop]
      unfold seekForward
      simp only []
      have hsame : closestPointBefore
          (seekToPoint z (closestPointBefore z.index t)).index t
          = closestPointBefore z.index t := rfl
      rw [hsame]
      have hnorestore : ¬((seekToPoint z (closestPointBefore z.index t)).pos
          + (seekToPoint z (closestPointBefore z.index t)).indexInterval
          < (closestPointBefore z.index t).uncompressedOffset) := by
        rw [hpos1]
        have := hwf.interval_pos
        omega
      rw [if_neg hnorestore]
      rfl
  · -- forward seek: restore only when the point is more than indexInterval ahead
    intro hfwd
    unfold seekStart
    rw [if_neg (by omega : ¬((t : Int) < 0))]
    rw [if_neg (by omega : ¬((t : Int) = (z.pos : Int)))]
    rw [if_pos (by omega : (z.pos : Int) < (t : Int))]
    have htn : ((t : Int)).toNat = t := by omega
    rw [htn]
    unfold seekForward
    simp only []
    split
    · rfl
    · rfl

/-- A tiny concrete source and a fresh reader used to witness the seek and
trailer theorems on executable inputs. -/
def gzDemoSrc : GzSource :=
  { data := [72, 105, 10], compAt := fun _ => 0, stateAt := fun _ => [],
    trailerDigest := crc32Bytes [72, 105, 10], trailerSize := 3 }

def gzDemoReader : GzReader := mkGzReader 2

theorem seek_reads_stream_at_target_witness :
    ((seekStart gzDemoSrc gzDemoReader ((2 : Nat) : Int)).2 = none ∧
     (seekStart gzDemoSrc gzDemoReader ((2 : Nat) : Int)).1.pos = 2 ∧
     (readGz gzDemoSrc (seekStart gzDemoSrc gzDemoReader ((2 : Nat) : Int)).1 4).bytes
        = (gzDemoSrc.data.drop 2).take (min 4 (gzDemoSrc.data.length - 2))) ∧
    ((closestPointBefore gzDemoReader.index 2).uncompressedOffset ≤ 2 ∧
     ∀ q ∈ gzDemoReader.index, q.uncompressedOffset ≤ 2 →
        q.uncompressedOffset ≤ (closestPointBefore gzDemoReader.index 2).uncompressedOffset) ∧
    (2 < gzDemoReader.pos →
      seekStart gzDemoSrc gzDemoReader ((2 : Nat) : Int)
        = discardLoop gzDemoSrc
            (seekToPoint gzDemoReader (closestPointBefore gzDemoReader.index 2))
            (2 - (closestPointBefore gzDemoReader.index 2).uncompressedOffset)) ∧
    (gzDemoReader.pos < 2 →
      seekStart gzDemoSrc gzDemoReader ((2 : Nat) : Int)
        = if gzDemoReader.pos + gzDemoReader.indexInterval
              < (closestPointBefore gzDemoReader.index 2).uncompressedOffset
          then discardLoop gzDemoSrc
              (seekToPoint gzDemoReader (closestPointBefore gzDemoReader.index 2))
              (2 - (closestPointBefore gzDemoReader.index 2).uncompressedOffset)
          else discardLoop gzDemoSrc gzDemoReader (2 - gzDemoReader.pos)) :=
  seek_reads_stream_at_target gzDemoSrc gzDemoReader 2 4
    ⟨by decide, by decide, by unfold IndexSorted; decide, by decide, by decide⟩ rfl (by decide)

/-- The persisted-index resume path: a fresh reader (NewReaderInterval with
interval 2, position and frontier 0) over a 6-byte stream, with a loaded
persisted Index assigned to it (runReader assigns reader.Index, and the gzran
package documents LoadIndex followed by Seek and read) whose last point sits
at uncompressed offset 4 — past the fresh reader's furthestRead of 0. -/
def demoLoadedSrc : GzSource :=
  { data := [70, 71, 72, 73, 74, 75], compAt := fun _ => 0,
    stateAt := fun _ => [], trailerDigest := 0, trailerSize := 6 }

def demoLoadedReader : GzReader :=
  { mkGzReader 2 with index := [⟨0, 0, []⟩, ⟨40, 4, [7]⟩] }

/-- C6: Refuted on the persisted-index resume path. With a fresh reader over a
6-byte stream and a loaded persisted Index whose last point lies at
uncompressed offset 4 (past the fresh reader's furthestRead of 0), the seek to
t = 4 restores decompressor state at that point and reports success with the
position on t, but the claimed property — subsequent reads yield the bytes of
the uncompressed stream starting at t, here [74, 75] — fails: the next Read
takes the frontier branch of gunzip.go with startIdx = furthestRead -
(pos - n) negative, and the Go runtime panics (slice bounds out of range,
modelled as the terminal sliceBounds outcome), so the read returns no bytes;
a seek to t = 5 panics the same way inside its discard loop. -/
theorem loaded_index_seek_read_panics :
    ((seekStart demoLoadedSrc demoLoadedReader ((4 : Nat) : Int)).2 = none ∧
     (seekStart demoLoadedSrc demoLoadedReader ((4 : Nat) : Int)).1.pos = 4) ∧
    (demoLoadedSrc.data.drop 4).take 2 = [74, 75] ∧
    (readGz demoLoadedSrc (seekStart demoLoadedSrc demoLoadedReader ((4 : Nat) : Int)).1 2).err
      = some GzErr.sliceBounds ∧
    (readGz demoLoadedSrc (seekStart demoLoadedSrc demoLoadedReader ((4 : Nat) : Int)).1 2).bytes
      = [] ∧
    (seekStart demoLoadedSrc demoLoadedReader ((5 : Nat) : Int)).2 = some GzErr.sliceBounds := by
  have hsorted : IndexSorted demoLoadedReader.index := by
    unfold IndexSorted
    decide
  have hc4 : closestPointBefore demoLoadedReader.index 4 = ⟨40, 4, [7]⟩ := by
    rw [closestPointBefore_eq _ _ hsorted]
    decide
  have hc5 : closestPointBefore demoLoadedReader.index 5 = ⟨40, 4, [7]⟩ := by
    rw [closestPointBefore_eq _ _ hsorted]
    decide
  have hbr4 : (if demoLoadedReader.pos + demoLoadedReader.indexInterval
        < (closestPointBefore demoLoadedReader.index 4).uncompressedOffset
      then seekToPoint demoLoadedReader (closestPointBefore demoLoadedReader.index 4)
      else demoLoadedReader) = { demoLoadedReader with pos := 4 } := by
    rw [hc4, if_pos (by decide)]
    rfl
  have hbr5 : (if demoLoadedReader.pos + demoLoadedReader.indexInterval
        < (closestPointBefore demoLoadedReader.index 5).uncompressedOffset
      then seekToPoint demoLoadedReader (closestPointBefore demoLoadedReader.index 5)
      else demoLoadedReader) = { demoLoadedReader with pos := 4 } := by
    rw [hc5, if_pos (by decide)]
    rfl
  have hsf4 : seekForward demoLoadedSrc demoLoadedReader 4
      = discardLoop demoLoadedSrc { demoLoadedReader with pos := 4 } 0 := by
    simp only [seekForward]
    rw [hbr4]
    rfl
  have hsf5 : seekForward demoLoadedSrc demoLoadedReader 5
      = discardLoop demoLoadedSrc { demoLoadedReader with pos := 4 } 1 := by
    simp only [seekForward]
    rw [hbr5]
    rfl
  have hd0 : discardLoop demoLoadedSrc { demoLoadedReader with pos := 4 } 0
      = ({ demoLoadedReader with pos := 4 }, none) := by
    rw [discardLoop]
    simp
  have hd1 : discardLoop demoLoadedSrc { demoLoadedReader with pos := 4 } 1
      = ({ { demoLoadedReader with pos := 4 } with err := some GzErr.sliceBounds },
          some GzErr.sliceBounds) := by
    rw [discardLoop]
    decide
  have hss4 : seekStart demoLoadedSrc demoLoadedReader ((4 : Nat) : Int)
      = ({ demoLoadedReader with pos := 4 }, none) := by
    have h0 : seekStart demoLoadedSrc demoLoadedReader ((4 : Nat) : Int)
        = seekForward demoLoadedSrc demoLoadedReader 4 := by
      unfold seekStart
      rw [if_neg (by decide), if_neg (by decide), if_pos (by decide)]
      rfl
    rw [h0, hsf4, hd0]
  have hss5 : seekStart demoLoadedSrc demoLoadedReader ((5 : Nat) : Int)
      = ({ { demoLoadedReader with pos := 4 } with err := some GzErr.sliceBounds },
          some GzErr.sliceBounds) := by
    have h0 : seekStart demoLoadedSrc demoLoadedReader ((5 : Nat) : Int)
        = seekForward demoLoadedSrc demoLoadedReader 5 := by
      unfold seekStart
      rw [if_neg (by decide), if_neg (by decide), if_pos (by decide)]
      rfl
    rw [h0, hsf5, hd1]
  refine ⟨⟨by rw [hss4], by rw [hss4]⟩, by decide, by rw [hss4]; decide,
    by rw [hss4]; decide, by rw [hss5]⟩

/-- C7: When the decompressor reaches end-of-stream it verifies the gzip
trailer CRC32 and uncompressed-size fields against the bytes produced on this
run, returning a Checksum error on mismatch; only bytes observed on the
furthest-reached forward frontier contribute to the running CRC (the
GzDigestWF invariant is preserved by every read), and the trailer is verified
only the first time the frontier reaches end-of-stream: once checkedDigest is
set, an end-of-stream read returns io.EOF without re-verifying. -/
theorem trailer_checksum_verified (src : GzSource) (z : GzReader) (k : Nat)
    (hwf : GzWF src z) (hdwf : GzDigestWF src z) (herr : z.err = none) :
    GzDigestWF src (readGz src z k).z ∧
    (z.pos = src.data.length → 1 ≤ k →
      ((z.checkedDigest = false →
        (((readGz src z k).err = some GzErr.checksum ↔
            ¬(src.trailerDigest = crc32Bytes src.data ∧
              src.trailerSize = src.data.length % 4294967296)) ∧
         ((readGz src z k).err = some GzErr.eof ↔
            (src.trailerDigest = crc32Bytes src.data ∧
              src.trailerSize = src.data.length % 4294967296)) ∧
         ((readGz src z k).err = some GzErr.eof →
            (readGz src z k).z.checkedDigest = true))) ∧
       (z.checkedDigest = true → (readGz src z k).err = some GzErr.eof))) := by
  refine ⟨readGz_dwf src z k hwf hdwf, ?_⟩
  intro hpos hk
  have hfr : z.furthestRead = src.data.length := by
    have h1 := hwf.pos_le
    have h2 := hwf.fr_le
    omega
  have hn : min k (src.data.length - z.pos) = 0 := by omega
  rw [readGz_eq_ok src z k hwf.pos_le]
  unfold readGzOk
  have h1 : z.err.isSome = false := by rw [herr]; rfl
  simp only [h1, Bool.false_eq_true, if_false, hn, Nat.add_zero]
  rw [if_pos (show 0 < k ∧ True from ⟨by omega, trivial⟩)]
  have hfu : frontierAdvance src z z.pos = z := by
    unfold frontierAdvance
    rw [if_neg (by omega : ¬ z.furthestRead < z.pos)]
  rw [hfu]
  constructor
  · intro hchk
    have hc2 : (indexUpdate src z z.pos).checkedDigest = false := by
      rw [indexUpdate_checked]
      exact hchk
    rw [if_neg (by rw [hc2]; exact Bool.false_ne_true)]
    have hdig : (indexUpdate src z z.pos).digest = crc32Bytes src.data := by
      rw [indexUpdate_digest, hdwf.digest_eq hchk, hfr, List.take_length]
    have hsiz : (indexUpdate src z z.pos).size = src.data.length % 4294967296 := by
      rw [indexUpdate_size, hdwf.size_eq hchk, hfr]
    by_cases hmis : src.trailerDigest ≠ (indexUpdate src z z.pos).digest ∨
        src.trailerSize ≠ (indexUpdate src z z.pos).size
    · rw [if_pos hmis]
      rw [hdig, hsiz] at hmis
      refine ⟨?_, ?_, ?_⟩
      · simp only [true_iff]
        tauto
      · constructor
        · intro he
          exact absurd he (by simp)
        · intro hok
          exact absurd hok (by tauto)
      · intro he
        exact absurd he (by simp)
    · rw [if_neg hmis]
      rw [hdig, hsiz] at hmis
      push_neg at hmis
      refine ⟨?_, ?_, ?_⟩
      · constructor
        · intro he
          exact absurd he (by simp)
        · intro hok
          exact absurd hok (by tauto)
      · simp only [true_iff]
        tauto
      · intro _
        rfl
  · intro hchk
    rw [if_pos (by rw [indexUpdate_checked]; exact hchk)]

/-- A reader state that has consumed all of `gzDemoSrc` but not yet observed
end-of-stream, with the matching running digest. -/
def gzEofReader : GzReader :=
  { pos := 3, furthestRead := 3, digest := crc32Bytes [72, 105, 10], size := 3,
    checkedDigest := false, index := [⟨0, 0, []⟩, ⟨7, 2, [1]⟩],
    indexInterval := 2, err := none }

theorem trailer_checksum_verified_witness :
    GzDigestWF gzDemoSrc (readGz gzDemoSrc gzEofReader 1).z ∧
    (gzEofReader.pos = gzDemoSrc.data.length → 1 ≤ 1 →
      ((gzEofReader.checkedDigest = false →
        (((readGz gzDemoSrc gzEofReader 1).err = some GzErr.checksum ↔
            ¬(gzDemoSrc.trailerDigest = crc32Bytes gzDemoSrc.data ∧
              gzDemoSrc.trailerSize = gzDemoSrc.data.length % 4294967296)) ∧
         ((readGz gzDemoSrc gzEofReader 1).err = some GzErr.eof ↔
            (gzDemoSrc.trailerDigest = crc32Bytes gzDemoSrc.data ∧
              gzDemoSrc.trailerSize = gzDemoSrc.data.length % 4294967296)) ∧
         ((readGz gzDemoSrc gzEofReader 1).err = some GzErr.eof →
            (readGz gzDemoSrc gzEofReader 1).z.checkedDigest = true))) ∧
       (gzEofReader.checkedDigest = true →
          (readGz gzDemoSrc gzEofReader 1).err = some GzErr.eof))) :=
  trailer_checksum_verified gzDemoSrc gzEofReader 1
    ⟨by decide, by decide, by unfold IndexSorted; decide, by decide, by decide⟩
    ⟨fun h => by decide, fun h => by decide⟩ rfl

/-! ## Index serialization (Index.WriteTo / LoadIndex, src/unnamed/part_013)

The Go code serializes the point list with `encoding/gob`, an external
standard-library wire format.  Modelled from the spec: the index file format
of §6 — magic bytes, format version, point count, then for each point
`{ compressed_offset: i64, uncompressed_offset: i64, state_len: u32,
state_bytes }`, all little-endian.  Offsets are nonnegative `int64` values,
hence bounded by 2^63. -/

/-- Little-endian encoding of `v` into exactly `w` bytes. -/
def encLE : Nat → Nat → List Nat
  | 0, _ => []
  | w + 1, v => v % 256 :: encLE w (v / 256)

/-- Little-endian decoding of a byte list. -/
def decLE (bs : List Nat) : Nat := bs.foldr (fun b acc => acc * 256 + b) 0

theorem encLE_length (w v : Nat) : (encLE w v).length = w := by
  induction w generalizing v with
  | zero => rfl
  | succ w ih => simp [encLE, ih]

theorem decLE_encLE (w v : Nat) (h : v < 256 ^ w) : decLE (encLE w v) = v := by
  induction w generalizing v with
  | zero =>
    simp [encLE, decLE]
    omega
  | succ w ih =>
    have hdiv : v / 256 < 256 ^ w := by
      rw [Nat.div_lt_iff_lt_mul (by omega)]
      calc v < 256 ^ (w + 1) := h
      _ = 256 ^ w * 256 := by ring
    simp only [encLE, decLE, List.foldr_cons]
    have := ih (v / 256) hdiv
    rw [decLE] at this
    rw [this]
    omega

def indexMagic : List Nat := [103, 122, 105, 120]

def indexVersion : Nat := 1

/-- One serialized IndexPoint. -/
def encodePoint (p : Point) : List Nat :=
  encLE 8 p.compressedOffset ++ encLE 8 p.uncompressedOffset ++
    encLE 4 p.decompressorState.length ++ p.decompressorState

/-- `Index.WriteTo`: magic + version + point count + serialized points. -/
def writeIndexBytes (idx : List Point) : List Nat :=
  indexMagic ++ [indexVersion] ++ encLE 8 idx.length ++ (idx.map encodePoint).flatten

/-- Parse `n` serialized points, returning them and the remaining bytes. -/
def parsePoints : Nat → List Nat → Option (List Point × List Nat)
  | 0, bs => some ([], bs)
  | n + 1, bs =>
    if bs.length < 20 then none
    else
      let co := decLE (bs.take 8)
      let uo := decLE ((bs.drop 8).take 8)
      let sl := decLE ((bs.drop 16).take 4)
      let rest := bs.drop 20
      if rest.length < sl then none
      else
        match parsePoints n (rest.drop sl) with
        | some (ps, rem) => some (⟨co, uo, rest.take sl⟩ :: ps, rem)
        | none => none

/-- `LoadIndex`: check magic and version, read the count, parse the points,
and require the input to be fully consumed. -/
def loadIndexBytes (bs : List Nat) : Option (List Point) :=
  if bs.take 4 = indexMagic then
    match bs.drop 4 with
    | v :: rest =>
      if v = indexVersion then
        match parsePoints (decLE (rest.take 8)) (rest.drop 8) with
        | some (ps, rem) => if rem = [] then some ps else none
        | none => none
      else none
    | [] => none
  else none

/-- Serializable points: offsets fit in a nonnegative int64 and the state
blob length fits in a u32. -/
def PointWF (p : Point) : Prop :=
  p.compressedOffset < 2 ^ 63 ∧ p.uncompressedOffset < 2 ^ 63 ∧
    p.decompressorState.length < 2 ^ 32

theorem take_len_append (l1 l2 : List Nat) (n : Nat) (h : l1.length = n) :
    (l1 ++ l2).take n = l1 := by
  subst h
  exact List.take_left l1 l2

theorem drop_len_append (l1 l2 : List Nat) (n : Nat) (h : l1.length = n) :
    (l1 ++ l2).drop n = l2 := by
  subst h
  exact List.drop_left l1 l2

theorem parsePoints_roundtrip (idx : List Point) (hwf : ∀ p ∈ idx, PointWF p) :
    ∀ rest, parsePoints idx.length ((idx.map encodePoint).flatten ++ rest)
      = some (idx, rest) := by
  induction idx with
  | nil =>
    intro rest
    simp [parsePoints]
  | cons p ps ih =>
    intro rest
    obtain ⟨hco, huo, hsl⟩ := hwf p (List.mem_cons_self p ps)
    have hbytes : ((p :: ps).map encodePoint).flatten ++ rest
        = encLE 8 p.compressedOffset ++ (encLE 8 p.uncompressedOffset ++
          (encLE 4 p.decompressorState.length ++ (p.decompressorState ++
            ((ps.map encodePoint).flatten ++ rest)))) := by
      simp [encodePoint, List.flatten]
    have hlen20 : ¬(((p :: ps).map encodePoint).flatten ++ rest).length < 20 := by
      rw [hbytes]
      simp [encLE_length]
      omega
    rw [List.length_cons, parsePoints]
    rw [if_neg hlen20]
    have htake8 : (((p :: ps).map encodePoint).flatten ++ rest).take 8
        = encLE 8 p.compressedOffset := by
      rw [hbytes]
      exact take_len_append _ _ 8 (encLE_length 8 _)
    have hdrop8 : (((p :: ps).map encodePoint).flatten ++ rest).drop 8
        = encLE 8 p.uncompressedOffset ++
          (encLE 4 p.decompressorState.length ++ (p.decompressorState ++
            ((ps.map encodePoint).flatten ++ rest))) := by
      rw [hbytes]
      exact drop_len_append _ _ 8 (encLE_length 8 _)
    have hdrop16 : (((p :: ps).map encodePoint).flatten ++ rest).drop 16
        = encLE 4 p.decompressorState.length ++ (p.decompressorState ++
          ((ps.map encodePoint).flatten ++ rest)) := by
      have h16 : (16 : Nat) = 8 + 8 := by omega
      rw [h16, ← List.drop_drop, hdrop8]
      exact drop_len_append _ _ 8 (encLE_length 8 _)
    have hdrop20 : (((p :: ps).map encodePoint).flatten ++ rest).drop 20
        = p.decompressorState ++ ((ps.map encodePoint).flatten ++ rest) := by
      have h20 : (20 : Nat) = 16 + 4 := by omega
      rw [h20, ← List.drop_drop, hdrop16]
      exact drop_len_append _ _ 4 (encLE_length 4 _)
    simp only [htake8, hdrop8, hdrop16, hdrop20]
    rw [take_len_append _ _ 8 (encLE_length 8 _)]
    rw [take_len_append _ _ 4 (encLE_length 4 _)]
    rw [decLE_encLE 8 _ (by norm_num at hco ⊢; omega)]
    rw [decLE_encLE 8 _ (by norm_num at huo ⊢; omega)]
    rw [decLE_encLE 4 _ (by norm_num at hsl ⊢; omega)]
    rw [if_neg (by simp)]
    rw [drop_len_append _ _ _ rfl]
    rw [take_len_append _ _ _ rfl]
    rw [ih (fun q hq => hwf q (List.mem_cons_of_mem p hq)) rest]

instance : DecidablePred PointWF := fun p => by
  unfold PointWF
  infer_instance

/-- C9: Serializing an Index with WriteTo and deserializing it with LoadIndex
yields the same sequence of IndexPoints, so seeking to any point of the
round-tripped Index and reading K bytes returns the same bytes as the same
seek-and-read performed without serialization. -/
theorem index_serialization_roundtrip (idx : List Point)
    (hwf : ∀ p ∈ idx, PointWF p) (hlen : idx.length < 2 ^ 63) :
    loadIndexBytes (writeIndexBytes idx) = some idx ∧
    (∀ (src : GzSource) (z : GzReader) (t : Int) (k : Nat),
      readGz src (seekStart src
        { z with index := (loadIndexBytes (writeIndexBytes idx)).getD [] } t).1 k
      = readGz src (seekStart src { z with index := idx } t).1 k) := by
  have hflat : writeIndexBytes idx
      = indexMagic ++ ([indexVersion] ++
          (encLE 8 idx.length ++ (idx.map encodePoint).flatten)) := by
    unfold writeIndexBytes
    simp [List.append_assoc]
  have hmain : loadIndexBytes (writeIndexBytes idx) = some idx := by
    unfold loadIndexBytes
    rw [hflat]
    rw [take_len_append indexMagic
      ([indexVersion] ++ (encLE 8 idx.length ++ (idx.map encodePoint).flatten)) 4 rfl]
    rw [if_pos rfl]
    rw [drop_len_append indexMagic
      ([indexVersion] ++ (encLE 8 idx.length ++ (idx.map encodePoint).flatten)) 4 rfl]
    simp only [List.singleton_append]
    rw [take_len_append (encLE 8 idx.length) ((idx.map encodePoint).flatten) 8
      (encLE_length 8 _)]
    rw [drop_len_append (encLE 8 idx.length) ((idx.map encodePoint).flatten) 8
      (encLE_length 8 _)]
    rw [decLE_encLE 8 idx.length (by norm_num at hlen ⊢; omega)]
    have hpp := parsePoints_roundtrip idx hwf []
    rw [List.append_nil] at hpp
    rw [hpp]
    simp
  refine ⟨hmain, ?_⟩
  intro src z t k
  rw [hmain]
  rfl

def demoIndex : List Point := [⟨0, 0, []⟩, ⟨5, 2, [9, 7]⟩]

theorem index_serialization_roundtrip_witness :
    loadIndexBytes (writeIndexBytes demoIndex) = some demoIndex ∧
    (∀ (src : GzSource) (z : GzReader) (t : Int) (k : Nat),
      readGz src (seekStart src
        { z with index := (loadIndexBytes (writeIndexBytes demoIndex)).getD [] } t).1 k
      = readGz src (seekStart src { z with index := demoIndex } t).1 k) :=
  index_serialization_roundtrip demoIndex (by decide) (by norm_num [demoIndex])

/-! ## Checkpoint data and persistence (src/checkpoint/types/types.go)

File paths are opaque identifiers (`Nat`); `json.MarshalIndent` (standard
library) is modelled as the checkpoint value itself, carried inside the
file-system operation. -/

/-- The Checkpoint document: `{ index_file, index_offset, source_file,
started_at, last_updated, completed_at? }` plus the unmarshalled Index. -/
structure CheckpointState where
  indexFile : Nat
  indexOffset : Nat
  sourceFile : Nat
  startedAt : Nat
  lastUpdated : Nat
  completedAt : Option Nat
  index : List Point
  deriving DecidableEq, Repr

/-- File-system effects a persist can perform.  `writeFile` is Go
`os.WriteFile(path, data, 0644)`; the remaining constructors exist to express
the spec's atomic write-temp/fsync/rename pattern, which the code never
emits. -/
inductive FsOp where
  | writeFile : Nat → CheckpointState → FsOp
  | writeTemp : Nat → CheckpointState → FsOp
  | fsyncFile : Nat → FsOp
  | renameFile : Nat → Nat → FsOp
  deriving DecidableEq, Repr

/-- `func (cp *Checkpoint) Save(checkpointFile string) error`: lock the mutex,
marshal, and write directly to the checkpoint path with a single
`os.WriteFile` (the comment in types.go reads "TODO: Improve writing to file
by first writing to temp file and renaming"). -/
def checkpointSave (cp : CheckpointState) (path : Nat) : List FsOp :=
  [FsOp.writeFile path cp]

/-- Refinement reference written from the spec's words: a persist trace is
atomic when it writes the serialized checkpoint to a temporary sibling path,
fsyncs it, and renames it over the checkpoint path. -/
def isAtomicPersistTrace (path : Nat) (ops : List FsOp) : Bool :=
  match ops with
  | [FsOp.writeTemp tmp _, FsOp.fsyncFile tmp2, FsOp.renameFile tmp3 dst] =>
    tmp == tmp2 && tmp2 == tmp3 && dst == path && !(tmp == path)
  | _ => false

/-! ## Checkpointer (src/migrator/checkpointer.go) -/

structure CheckpointJob where
  workerId : Nat
  offset : Nat
  deriving DecidableEq, Repr

/-- The configuration the checkpointer consults: `checkpoint_interval` and
`checkpoint_file`. -/
structure CPConfig where
  interval : Nat
  checkpointFile : Nat
  deriving DecidableEq, Repr

/-- The migrator state the checkpointer mutates: the Checkpoint plus `m.last`,
the wall-clock instant of the last persist (`none` is Go's zero time). -/
structure CPRunState where
  cp : CheckpointState
  last : Option Nat
  deriving DecidableEq, Repr

/-- `func (m *Migrator) saveCheckpoint(cp *CheckpointJob, cleanExit ...bool)`:
skip when the last persist is less than `checkpoint_interval` ago unless an
exit flag is passed; skip a nil job; otherwise set `index_offset` to the
job's offset, stamp `last_updated`, set `completed_at` only when the exit
flag is `true`, write the file, and remember `m.last = now`. -/
def saveCheckpoint (cfg : CPConfig) (st : CPRunState) (now : Nat)
    (job : Option CheckpointJob) (cleanExit : Option Bool) : CPRunState × List FsOp :=
  if (match st.last with
      | some l => decide (now < l + cfg.interval)
      | none => false) && cleanExit.isNone then
    (st, [])
  else
    match job with
    | none => (st, [])
    | some j =>
      let cp2 : CheckpointState :=
        { st.cp with
          indexOffset := j.offset,
          lastUpdated := now,
          completedAt := if cleanExit = some true then some now else st.cp.completedAt }
      ({ cp := cp2, last := some now }, checkpointSave cp2 cfg.checkpointFile)

/-- The receive loop of `runCheckpointer`: each CheckpointJob (tagged with the
wall-clock instant at which it is handled) is saved through the throttle and
remembered as `lastJob`.  Returns the final state, the last job seen, and the
concatenated persist trace. -/
def runCheckpointerLoop (cfg : CPConfig) :
    List (Nat × CheckpointJob) → CPRunState →
      CPRunState × Option CheckpointJob × List FsOp
  | [], st => (st, none, [])
  | (now, cp) :: rest, st =>
    let r := saveCheckpoint cfg st now (some cp) none
    let r2 := runCheckpointerLoop cfg rest r.1
    (r2.1, some (match r2.2.1 with | some j => j | none => cp), r.2 ++ r2.2.2)

/-- `runCheckpointer`: run the receive loop until the control message arrives
(`exitState` = clean/interrupted), then perform the final
`saveCheckpoint(lastJob, exitState)`, which bypasses the throttle but still
skips a nil `lastJob`. -/
def runCheckpointer (cfg : CPConfig) (st0 : CPRunState)
    (events : List (Nat × CheckpointJob)) (exitTime : Nat) (exitState : Bool) :
    CPRunState × List FsOp :=
  let r := runCheckpointerLoop cfg events st0
  let fin := saveCheckpoint cfg r.1 exitTime r.2.1 (some exitState)
  (fin.1, r.2.2 ++ fin.2)

/-- The sequence of index_offset values durably written by a persist trace. -/
def persistedOffsets (ops : List FsOp) : List Nat :=
  ops.filterMap (fun op =>
    match op with
    | FsOp.writeFile _ cp => some cp.indexOffset
    | _ => none)

def listNondecreasing : List Nat → Bool
  | [] => true
  | [_] => true
  | a :: b :: rest => decide (a ≤ b) && listNondecreasing (b :: rest)

/-! ## Supervisor (src/migrator/migrator.go Run / shutdown) -/

/-- The three inputs of the select at the bottom of `Migrator.Run`. -/
inductive RunSignal where
  | ctxDone
  | readerFin
  | workerErr
  deriving DecidableEq, Repr

/-- Embedding of that select: context cancellation triggers
`m.shutdown(..., cleanExit=false)`; the reader-finished channel triggers
`m.shutdown(..., cleanExit=true)`; a (non-nil) error from `errCh` makes `Run`
return immediately WITHOUT calling `m.shutdown`, so no terminal control
message is ever sent to the checkpointer.  The result is the flag sent on
`cpControlCh`, or `none` when none is sent. -/
def supervisorControlSignal : RunSignal → Option Bool
  | RunSignal.ctxDone => some false
  | RunSignal.readerFin => some true
  | RunSignal.workerErr => none

/-- The persist trace of a whole run given the select outcome: when no
terminal signal is sent the checkpointer never leaves its receive loop and the
final persist never happens (the process then exits from main). -/
def migratorRunOps (cfg : CPConfig) (st0 : CPRunState)
    (events : List (Nat × CheckpointJob)) (sig : RunSignal) (exitTime : Nat) :
    List FsOp :=
  match supervisorControlSignal sig with
  | none => (runCheckpointerLoop cfg events st0).2.2
  | some clean => (runCheckpointer cfg st0 events exitTime clean).2

/-- The reader goroutine wrapper in `Run` (migrator.go lines 144-156): after
`runReader` returns — whether nil, with an error, or because the context was
canceled — it always sends on `finCh`.  The arguments record why the reader
exited; the send happens regardless. -/
def readerFinSent (readerErrored : Bool) (ctxCanceled : Bool) : Bool := true

/-- The select cases of `Run` that are ready, in source order. -/
def readySignals (ctxCanceled finSent errPending : Bool) : List RunSignal :=
  (if ctxCanceled then [RunSignal.ctxDone] else [])
    ++ (if finSent then [RunSignal.readerFin] else [])
    ++ (if errPending then [RunSignal.workerErr] else [])

/-- Go select chooses among ready cases nondeterministically (uniformly at
random); the choice is modelled by an explicit scheduler index. -/
def selectPick (sigs : List RunSignal) (i : Nat) : Option RunSignal := sigs.get? i

/-! ## Reader (src/migrator/reader.go) -/

/-- Default gzran index interval used by `gzran.NewReader` (1 MB). -/
def defaultIndexInterval : Nat := 1048576

/-- Line splitting of `bufio.Scanner` over the decompressed stream, modelled
from the spec (§4.2): a line is the bytes up to and including the next
newline, emitted without the terminator; a final unterminated token is also
emitted. -/
def splitLinesAux (cur : List Nat) : List Nat → List (List Nat)
  | [] => if cur.isEmpty then [] else [cur.reverse]
  | b :: rest =>
    if b = 10 then cur.reverse :: splitLinesAux [] rest
    else splitLinesAux (b :: cur) rest

def splitLines (s : List Nat) : List (List Nat) := splitLinesAux [] s

/-- The reader state `runReader` scans from: `os.Open` + `gzran.NewReader`
position the decompressor at uncompressed offset 0, then
`reader.Index = m.cp.Index`.  The local `offset` variable is initialized to
`m.cp.IndexOffset` ("Where to start reading from") but is a dead store —
`runReader` performs no Seek before scanning. -/
def runReaderStart (cp : CheckpointState) : GzReader :=
  { mkGzReader defaultIndexInterval with index := cp.index }

/-- The sequence of record payloads `runReader` emits as ProcessorJobs: the
lines scanned from the reader's current position onward. -/
def runReaderLines (cp : CheckpointState) (src : GzSource) : List (List Nat) :=
  splitLines (src.data.drop (runReaderStart cp).pos)

/-! ## Processor pool (src/migrator/worker.go) -/

structure ProcJob where
  data : List Nat
  offset : Nat
  deriving DecidableEq, Repr

/-- The dedup fingerprint: Go computes the sha256 hex digest of the record
bytes (external crypto library); modelled as the record bytes themselves — a
stable injective fingerprint of the record, as the spec describes. -/
def checksumOf (data : List Nat) : List Nat := data

/-- `func (m *Migrator) processJob(j *ProcessorJob) (*WriterJob, error)`:
"BEGIN Temporary dupe checks" — if the fingerprint is already in the map,
return an error (`errors.New("checksum already in map")`); otherwise record it
and emit a WriterJob carrying the job's offset. -/
def processJob (checks : List (List Nat)) (j : ProcJob) :
    Except Unit (Nat × List (List Nat)) :=
  let c := checksumOf j.data
  if checks.contains c then Except.error ()
  else Except.ok (j.offset, c :: checks)

/-- The consume loop of `runProcessor`: on a `processJob` error the worker
returns the wrapped error (which `Run` forwards to `errCh`); otherwise the
WriterJob is sent downstream and the loop continues.  Returns the emitted
WriterJob offsets and the final fingerprint set. -/
def runProcessorJobs : List ProcJob → List (List Nat) →
    Except Unit (List Nat × List (List Nat))
  | [], checks => Except.ok ([], checks)
  | j :: rest, checks =>
    match processJob checks j with
    | Except.error e => Except.error e
    | Except.ok (wj, checks2) =>
      match runProcessorJobs rest checks2 with
      | Except.error e => Except.error e
      | Except.ok (wjs, cf) => Except.ok (wj :: wjs, cf)

/-! ## Config validation (src/config/config.go) -/

/-- The conversion tags the code accepts (`validConvs` in config.go). -/
def validConvs : List String := ["string", "int", "float", "bool", "time", "json", "date", "timestamp"]

structure TOMLMappingEntry where
  src : String
  dst : String
  conv : String
  required : Bool
  dupeCheck : Bool

/-- `func validateMappingEntry(e *TOMLMappingEntry) error`: reject empty
src/dst/conv and any conv tag not in `validConvs` (the nil-entry check has no
Lean counterpart).  `true` means accepted. -/
def validateMappingEntry (e : TOMLMappingEntry) : Bool :=
  if e.src = "" then false
  else if e.dst = "" then false
  else if e.conv = "" then false
  else validConvs.contains e.conv

/-- Refinement reference: the conv set named by the claim. -/
def specClaimedConvs : List String :=
  ["int", "string", "float", "bool", "date", "datetime", "timestamp", "bson", "base64"]

/-! ## Claim theorems for the pipeline components -/

def cpDemoState : CheckpointState :=
  { indexFile := 0, indexOffset := 0, sourceFile := 1, startedAt := 0,
    lastUpdated := 0, completedAt := none, index := [] }

def cpDemoCfg : CPConfig := { interval := 1, checkpointFile := 0 }

def cpDemoSt0 : CPRunState := { cp := cpDemoState, last := none }

/-- C2 counterexample: with two writers acknowledging out of order (offset 6
then offset 3) and the throttle open, the checkpointer persists 6, then 3,
then 3 again at the final persist — the persisted index_offset decreases, so
it is not monotonically non-decreasing across persist operations. -/
theorem checkpoint_offset_monotonicity_fails :
    persistedOffsets
      (runCheckpointer cpDemoCfg cpDemoSt0 [(0, ⟨1, 6⟩), (5, ⟨2, 3⟩)] 10 false).2
      = [6, 3, 3] ∧
    listNondecreasing (persistedOffsets
      (runCheckpointer cpDemoCfg cpDemoSt0 [(0, ⟨1, 6⟩), (5, ⟨2, 3⟩)] 10 false).2)
      = false := by
  decide

/-- C2 amended: the checkpointer is last-write-wins — whenever saveCheckpoint
performs a persist at all, the persisted index_offset is exactly the incoming
CheckpointJob's offset, with no monotonicity or acknowledgement-frontier
enforcement. -/
theorem saveCheckpoint_last_write_wins (cfg : CPConfig) (st : CPRunState)
    (now : Nat) (j : CheckpointJob) (ce : Option Bool)
    (h : (saveCheckpoint cfg st now (some j) ce).2 ≠ []) :
    (saveCheckpoint cfg st now (some j) ce).1.cp.indexOffset = j.offset ∧
    persistedOffsets (saveCheckpoint cfg st now (some j) ce).2 = [j.offset] := by
  unfold saveCheckpoint at h ⊢
  by_cases hcond : ((match st.last with
      | some l => decide (now < l + cfg.interval)
      | none => false) && ce.isNone) = true
  · rw [if_pos hcond] at h
    exact absurd rfl h
  · rw [if_neg hcond] at h ⊢
    exact ⟨rfl, rfl⟩

theorem saveCheckpoint_last_write_wins_witness :
    (saveCheckpoint cpDemoCfg cpDemoSt0 0 (some ⟨1, 6⟩) none).2 ≠ [] ∧
    (saveCheckpoint cpDemoCfg cpDemoSt0 0 (some ⟨1, 6⟩) none).1.cp.indexOffset = 6 ∧
    persistedOffsets (saveCheckpoint cpDemoCfg cpDemoSt0 0 (some ⟨1, 6⟩) none).2 = [6] :=
  ⟨by decide, saveCheckpoint_last_write_wins cpDemoCfg cpDemoSt0 0 ⟨1, 6⟩ none (by decide)⟩

/-- C3 counterexample: at a concrete checkpoint the persist trace of
Checkpoint.Save is a single direct WriteFile to the checkpoint path; it does
not match the spec's atomic write-temp/fsync/rename pattern, so an
interrupted persist can leave a partially-written file at the checkpoint
path. -/
theorem checkpoint_save_not_atomic :
    checkpointSave cpDemoState 0 = [FsOp.writeFile 0 cpDemoState] ∧
    isAtomicPersistTrace 0 (checkpointSave cpDemoState 0) = false := by
  decide

theorem saveCheckpoint_ops_direct (cfg : CPConfig) (st : CPRunState) (now : Nat)
    (job : Option CheckpointJob) (ce : Option Bool) :
    ∀ op ∈ (saveCheckpoint cfg st now job ce).2,
      ∃ c, op = FsOp.writeFile cfg.checkpointFile c := by
  unfold saveCheckpoint
  split
  · intro op hop
    simp at hop
  · cases job with
    | none =>
      intro op hop
      simp at hop
    | some j =>
      intro op hop
      simp only [checkpointSave, List.mem_singleton] at hop
      exact ⟨_, hop⟩

theorem runCheckpointerLoop_ops_direct (cfg : CPConfig) :
    ∀ events st, ∀ op ∈ (runCheckpointerLoop cfg events st).2.2,
      ∃ c, op = FsOp.writeFile cfg.checkpointFile c := by
  intro events
  induction events with
  | nil =>
    intro st op hop
    simp [runCheckpointerLoop] at hop
  | cons e rest ih =>
    intro st op hop
    obtain ⟨now, cpj⟩ := e
    simp only [runCheckpointerLoop] at hop
    rw [List.mem_append] at hop
    rcases hop with h | h
    · exact saveCheckpoint_ops_direct cfg st now (some cpj) none op h
    · exact ih _ op h

/-- C3 amended: every persist a checkpointer run performs — throttled saves
and the final save alike — is a single direct WriteFile of the serialized
checkpoint to the configured checkpoint path; no temp write, fsync, or rename
is ever emitted. -/
theorem checkpointer_persists_direct_writes (cfg : CPConfig) (st0 : CPRunState)
    (events : List (Nat × CheckpointJob)) (exitTime : Nat) (exitState : Bool) :
    ∀ op ∈ (runCheckpointer cfg st0 events exitTime exitState).2,
      ∃ c, op = FsOp.writeFile cfg.checkpointFile c := by
  intro op hop
  unfold runCheckpointer at hop
  simp only [] at hop
  rw [List.mem_append] at hop
  rcases hop with h | h
  · exact runCheckpointerLoop_ops_direct cfg events st0 op h
  · exact saveCheckpoint_ops_direct cfg _ exitTime _ (some exitState) op h

/-- C4: code evaluation at the failing input.  A fatal worker error makes Run
return without sending the terminal control message, so the checkpointer never
performs its final persist: the same single-event run persists once under a
worker error but twice (the event save plus the unconditional final save)
under clean completion or interruption — contradicting the claim and Run's own
doc comment ("Run() will then trigger a shutdown of all components"). -/
theorem fatal_error_skips_final_persist :
    supervisorControlSignal RunSignal.workerErr = none ∧
    (migratorRunOps cpDemoCfg cpDemoSt0 [(0, ⟨1, 6⟩)] RunSignal.workerErr 10).length = 1 ∧
    (migratorRunOps cpDemoCfg cpDemoSt0 [(0, ⟨1, 6⟩)] RunSignal.readerFin 10).length = 2 ∧
    (migratorRunOps cpDemoCfg cpDemoSt0 [(0, ⟨1, 6⟩)] RunSignal.ctxDone 10).length = 2 := by
  decide

/-- C5: code evaluation at the failing input.  Two jobs with identical record
bytes make processJob return the "checksum already in map" error and the
worker loop returns it (tearing down the pipeline through errCh), while the
same run with distinct records succeeds — per-record dedup drops are fatal to
the worker, not skipped. -/
theorem duplicate_record_fatal_to_worker :
    runProcessorJobs [⟨[97], 3⟩, ⟨[97], 6⟩] [] = Except.error () ∧
    runProcessorJobs [⟨[97], 3⟩, ⟨[98], 6⟩] [] = Except.ok ([3, 6], [[98], [97]]) :=
  ⟨rfl, rfl⟩

def c1Checkpoint : CheckpointState :=
  { indexFile := 0, indexOffset := 3, sourceFile := 1, startedAt := 0,
    lastUpdated := 0, completedAt := none, index := [⟨0, 0, []⟩] }

def c1Src : GzSource :=
  { data := [97, 98, 10, 99, 100, 10], compAt := fun _ => 0,
    stateAt := fun _ => [], trailerDigest := 0, trailerSize := 0 }

/-- C1: code evaluation at the failing input.  With an unfinished checkpoint
whose index_offset is 3 over the stream "ab\ncd\n", runReader assigns the
persisted offset to a dead local and never seeks: the reader starts at
position 0 and the first emitted record is the stream's first record "ab",
not the record "cd" immediately following offset 3. -/
theorem reader_resume_ignores_checkpoint_offset :
    c1Checkpoint.indexOffset = 3 ∧
    (runReaderStart c1Checkpoint).pos = 0 ∧
    (runReaderLines c1Checkpoint c1Src).head? = some [97, 98] ∧
    (splitLines (c1Src.data.drop c1Checkpoint.indexOffset)).head? = some [99, 100] ∧
    (runReaderLines c1Checkpoint c1Src).head?
      ≠ (splitLines (c1Src.data.drop c1Checkpoint.indexOffset)).head? := by
  decide

/-- C8: code evaluation at the failing schedule.  When the context is canceled
mid-stream the reader exits and still signals finCh; with both select cases
ready a legal Go select outcome picks the reader-finished case, Run shuts down
with cleanExit=true, and the final persist stamps completed_at on an
interrupted run — so completed_at is not set only on clean exits past
end-of-stream. -/
theorem interrupted_run_can_set_completed_at :
    readerFinSent false true = true ∧
    selectPick (readySignals true (readerFinSent false true) false) 1
      = some RunSignal.readerFin ∧
    supervisorControlSignal RunSignal.readerFin = some true ∧
    (runCheckpointer cpDemoCfg cpDemoSt0 [(0, ⟨1, 4⟩)] 10 true).1.cp.completedAt
      = some 10 := by
  decide

/-- C10 counterexample: the tag "datetime" belongs to the claimed conv set but
is rejected by the code, and "json" is accepted by the code but absent from
the claimed set — validation does not accept exactly the claimed set. -/
theorem conv_validation_differs_from_claim :
    ("datetime" ∈ specClaimedConvs) ∧
    validateMappingEntry ⟨"a", "t:c", "datetime", false, false⟩ = false ∧
    ¬("json" ∈ specClaimedConvs) ∧
    validateMappingEntry ⟨"a", "t:c", "json", false, false⟩ = true := by
  decide

/-- C10 amended: for a mapping entry with nonempty src and dst, validation
accepts it if and only if its conv tag is one of
{string, int, float, bool, time, json, date, timestamp}. -/
theorem conv_validation_iff (e : TOMLMappingEntry)
    (hs : e.src ≠ "") (hd : e.dst ≠ "") :
    validateMappingEntry e = true ↔ e.conv ∈ validConvs := by
  unfold validateMappingEntry
  rw [if_neg hs, if_neg hd]
  by_cases hc : e.conv = ""
  · rw [if_pos hc]
    constructor
    · intro h
      exact absurd h (by simp)
    · intro h
      rw [hc] at h
      exact absurd h (by decide)
  · rw [if_neg hc]
    simp

theorem conv_validation_iff_witness :
    ("a" ≠ "") ∧ ("t:c" ≠ "") ∧
    (validateMappingEntry ⟨"a", "t:c", "int", false, false⟩ = true
      ↔ "int" ∈ validConvs) :=
  ⟨by decide, by decide,
    conv_validation_iff ⟨"a", "t:c", "int", false, false⟩ (by decide) (by decide)⟩

theorem checkpointer_persists_direct_writes_witness :
    ∃ c, FsOp.writeFile 0
        { indexFile := 0, indexOffset := 6, sourceFile := 1, startedAt := 0,
          lastUpdated := 0, completedAt := none, index := [] }
      = FsOp.writeFile cpDemoCfg.checkpointFile c :=
  checkpointer_persists_direct_writes cpDemoCfg cpDemoSt0 [(0, ⟨1, 6⟩)] 10 false
    (FsOp.writeFile 0
      { indexFile := 0, indexOffset := 6, sourceFile := 1, startedAt := 0,
        lastUpdated := 0, completedAt := none, index := [] })
    (by decide)
